import Mathlib

/-!
Verification development for the gotas task-synchronization server.

The definitions below are a shallow embedding of the Go sources:
  * the `Task` attribute bag and its accessors (`pkg/task/task.go`),
  * the canonical JSON emission `ComposeJSON` (`pkg/task/task.go`),
  * the JSON task parser `parseJSON` (`pkg/task/task.go`),
  * the scanner `Pig.GetQuoted` (`pkg/task/parser.go`), modelled at byte
    granularity because the Go code mixes byte indices with rune decoding,
  * the merge engine (`task/server.go`): `findBranchPoint`, `extractSubset`,
    `findCommonAncestor`, `getClientMods`, `getServerMods`, `mergeSort`,
    `patch`, `lastModification`, `generatePayload`, `getResponsePayload`
    and the `sync` request handler,
  * the framed-message reader `receiveMessage` (`task/server.go`), modelled
    over a chunked byte stream so that partial reads are observable,
  * the transaction-log `Append` of `repo` (copy to temp file, write, close,
    rename), modelled as a small step machine over a two-file state so that
    interleavings of two concurrent appends can be examined.

Go `map[string]string` values are modelled as association lists; `time.Time`
values are modelled by their Unix seconds (`Int`), which is faithful for every
construction the code performs (`time.Unix(epoch, 0)` and `time.Time{}`, whose
Unix value is -62135596800).  Machine integers stay well inside 64 bits in all
modelled code paths, so `Int`/`Nat` are used directly.
-/

namespace Gotas

/-- Task is the attribute bag of pkg/task/task.go: a Go map from attribute
name to string value, modelled as an association list (first binding wins). -/
structure Task where
  data : List (String × String)
deriving DecidableEq

/-- Get returns the given task attribute or the zero value "" if it does not
exist (Go map read). -/
def Task.Get (t : Task) (name : String) : String :=
  match t.data.find? (fun p => p.1 == name) with
  | some p => p.2
  | none => ""

/-- Has returns true only if the task has the given attribute. -/
def Task.Has (t : Task) (name : String) : Bool :=
  (t.data.find? (fun p => p.1 == name)).isSome

/-- Set sets or overrides the given attribute (Go map write). -/
def Task.Set (t : Task) (name value : String) : Task :=
  if t.Has name then ⟨t.data.map (fun p => if p.1 == name then (name, value) else p)⟩
  else ⟨t.data ++ [(name, value)]⟩

/-- Remove removes an attribute, or does nothing if it is absent (Go delete). -/
def Task.Remove (t : Task) (name : String) : Task :=
  ⟨t.data.filter (fun p => !(p.1 == name))⟩

/-- GetAttrNames returns the list of task attribute names. -/
def Task.GetAttrNames (t : Task) : List String :=
  t.data.map Prod.fst

/-- Copy returns a copy of the task (value copy; the model is already pure). -/
def Task.Copy (t : Task) : Task := t

/-- digitsToInt evaluates a non-empty all-digit character list, the digit part
of Go strconv.Atoi. -/
def digitsToInt (cs : List Char) : Option Int :=
  if cs = [] then none
  else if cs.all (fun c => c.isDigit) then
    some (cs.foldl (fun acc c => acc * 10 + ((c.toNat : Int) - 48)) 0)
  else none

/-- atoiGo is Go strconv.Atoi: an optional sign followed by digits.
(Overflow of int64 cannot occur in the modelled code paths.) -/
def atoiGo (s : String) : Option Int :=
  match s.toList with
  | [] => none
  | '+' :: ds => digitsToInt ds
  | '-' :: ds => (digitsToInt ds).map (fun n => -n)
  | ds => digitsToInt ds

/-- zeroTimeUnix is the Unix value of the Go zero time.Time (0001-01-01T00:00:00Z),
returned by GetDate for a missing or unparsable attribute. -/
def zeroTimeUnix : Int := -62135596800

/-- GetDate returns the attribute as a date (Unix seconds): Atoi of the value,
or the zero time when the attribute is missing or not a number. -/
def Task.GetDate (t : Task) (name : String) : Int :=
  if t.Has name then
    match atoiGo (t.Get name) with
    | some epoch => epoch
    | none => zeroTimeUnix
  else zeroTimeUnix

/-- GetInt returns the attribute as an integer, or 0 when missing or unparsable. -/
def Task.GetInt (t : Task) (name : String) : Int :=
  if t.Has name then
    match atoiGo (t.Get name) with
    | some n => n
    | none => 0
  else 0

/-- SetDate sets the given attribute to the decimal Unix seconds of the date. -/
def Task.SetDate (t : Task) (name : String) (d : Int) : Task :=
  t.Set name (toString d)

/-- sliceContains is the linear membership scan of task/server.go. -/
def sliceContains : List String → String → Bool
  | [], _ => false
  | v :: rest, value => if v = value then true else sliceContains rest value

/-- listDiff returns the left-only and right-only attribute names
(task/server.go; the Go append loops build exactly these filters). -/
def listDiff (left right : List String) : List String × List String :=
  (left.filter (fun l => !(sliceContains right l)),
   right.filter (fun r => !(sliceContains left r)))

/-- listIntersect returns the common attribute names (task/server.go). -/
def listIntersect (left right : List String) : List String :=
  left.filter (fun l => sliceContains right l)

/-- patch determines the delta between from and to and applies only those
changes to base (task/server.go): from-only attributes are deleted from base,
to-only attributes are added, and common attributes whose values differ are
set to the value in to. -/
def patch (base from' to' : Task) : Task :=
  let fromAtts := from'.GetAttrNames
  let toAtts := to'.GetAttrNames
  let d := listDiff fromAtts toAtts
  let fromOnly := d.1
  let toOnly := d.2
  let commonAtts := listIntersect fromAtts toAtts
  let base1 := fromOnly.foldl (fun b att => b.Remove att) base
  let base2 := toOnly.foldl (fun b att => b.Set att (to'.Get att)) base1
  commonAtts.foldl
    (fun b att => if from'.Get att ≠ to'.Get att then b.Set att (to'.Get att) else b) base2

/-- lastModification returns the first present of modified, end, start, and
falls back to entry (task/server.go). -/
def lastModification (t : Task) : Int :=
  match ["modified", "end", "start"].find? (fun f => t.Has f) with
  | some f => t.GetDate f
  | none => t.GetDate "entry"

/-- mergeSortLoop walks the two modification lists with the two previous-value
registers, patching the combined task (the loop bodies of mergeSort in
task/server.go, including both drain loops). -/
def mergeSortLoop : List Task → List Task → Task → Task → Task → Task
  | l :: ls, r :: rs, combined, prevLeft, prevRight =>
    if lastModification l < lastModification r then
      mergeSortLoop ls (r :: rs)
        ((patch combined prevLeft l).SetDate "modified" (lastModification l)) l prevRight
    else
      mergeSortLoop (l :: ls) rs
        ((patch combined prevRight r).SetDate "modified" (lastModification r)) prevLeft r
  | l :: ls, [], combined, prevLeft, prevRight =>
      mergeSortLoop ls []
        ((patch combined prevLeft l).SetDate "modified" (lastModification l)) l prevRight
  | [], r :: rs, combined, prevLeft, prevRight =>
      mergeSortLoop [] rs
        ((patch combined prevRight r).SetDate "modified" (lastModification r)) prevLeft r
  | [], [], combined, _, _ => combined
termination_by l r _ _ _ => l.length + r.length

/-- mergeSort simultaneously walks the two lists, selecting left or right by
last modification time (task/server.go); both previous-value registers start
as copies of the combined (ancestor) task. -/
def mergeSort (left right : List Task) (combined : Task) : Task :=
  mergeSortLoop left right combined combined.Copy combined.Copy

/-- strStartsWith is Go strings.HasPrefix (structurally, over the character
lists, so that it evaluates inside proofs). -/
def strStartsWith (s pre : String) : Bool :=
  pre.toList.isPrefixOf s.toList

/-- attributeTypes is the static attribute-type table of pkg/task/task.go
(Go map read with "" for unknown attributes). -/
def attributeTypes (name : String) : String :=
  if name = "depends" then "string"
  else if name = "description" then "string"
  else if name = "due" then "date"
  else if name = "end" then "date"
  else if name = "entry" then "date"
  else if name = "id" then "string"
  else if name = "imask" then "numeric"
  else if name = "mask" then "string"
  else if name = "modification" then "date"
  else if name = "modified" then "date"
  else if name = "parent" then "string"
  else if name = "priority" then "string"
  else if name = "project" then "string"
  else if name = "recur" then "duration"
  else if name = "scheduled" then "date"
  else if name = "start" then "date"
  else if name = "status" then "string"
  else if name = "tags" then "string"
  else if name = "until" then "date"
  else if name = "urgency" then "string"
  else if name = "uuid" then "string"
  else if name = "wait" then "date"
  else ""

/-- ErrorCodes is the code-to-status table of pkg/task/task.go. -/
def ErrorCodes (code : Nat) : String :=
  if code = 200 then "Ok"
  else if code = 201 then "No change"
  else if code = 202 then "Decline"
  else if code = 300 then "Deprecated request type"
  else if code = 301 then "Redirect"
  else if code = 302 then "Retry"
  else if code = 400 then "Malformed data"
  else if code = 401 then "Unsupported encoding"
  else if code = 420 then "Server temporarily unavailable"
  else if code = 430 then "Access denied"
  else if code = 431 then "Account suspended"
  else if code = 432 then "Account terminated"
  else if code = 500 then "Syntax error in request"
  else if code = 501 then "Syntax error, illegal parameters"
  else if code = 502 then "Not implemented"
  else if code = 503 then "Command parameter not implemented"
  else if code = 504 then "Request too big"
  else ""

/-- civilFromDays converts days since 1970-01-01 to a proleptic-Gregorian
(year, month, day) triple; this is the arithmetic underlying Go time.Time
formatting in UTC. -/
def civilFromDays (days : Int) : Int × Int × Int :=
  let z := days + 719468
  let era := z.fdiv 146097
  let doe := z - era * 146097
  let yoe := (doe - doe.fdiv 1460 + doe.fdiv 36524 - doe.fdiv 146096).fdiv 365
  let y := yoe + era * 400
  let doy := doe - (365 * yoe + yoe.fdiv 4 - yoe.fdiv 100)
  let mp := (5 * doy + 2).fdiv 153
  let d := doy - (153 * mp + 2).fdiv 5 + 1
  let m := mp + (if mp < 10 then 3 else -9)
  (y + (if m ≤ 2 then 1 else 0), m, d)

/-- daysFromCivil converts a proleptic-Gregorian date to days since 1970-01-01. -/
def daysFromCivil (y m d : Int) : Int :=
  let y' := y - (if m ≤ 2 then 1 else 0)
  let era := y'.fdiv 400
  let yoe := y' - era * 400
  let doy := (153 * (m + (if m > 2 then -3 else 9)) + 2).fdiv 5 + d - 1
  let doe := yoe * 365 + yoe.fdiv 4 - yoe.fdiv 100 + doy
  era * 146097 + doe - 719468

/-- pad2 renders a non-negative number on two digits. -/
def pad2 (n : Int) : String :=
  if n < 10 then "0" ++ toString n else toString n

/-- pad4 renders a non-negative number on four digits (Go layout element 2006). -/
def pad4 (n : Int) : String :=
  if n < 10 then "000" ++ toString n
  else if n < 100 then "00" ++ toString n
  else if n < 1000 then "0" ++ toString n
  else toString n

/-- formatDate renders Unix seconds in the canonical DateLayout
20060102T150405Z, in UTC (Go time.Time.Format). -/
def formatDate (epoch : Int) : String :=
  let days := epoch.fdiv 86400
  let secs := epoch - days * 86400
  let ymd := civilFromDays days
  pad4 ymd.1 ++ pad2 ymd.2.1 ++ pad2 ymd.2.2 ++ "T" ++
    pad2 (secs.fdiv 3600) ++ pad2 ((secs.fdiv 60).fmod 60) ++ pad2 (secs.fmod 60) ++ "Z"

/-- isLeapYear is the Gregorian leap-year rule. -/
def isLeapYear (y : Int) : Bool :=
  (y.fmod 4 = 0 ∧ y.fmod 100 ≠ 0) ∨ y.fmod 400 = 0

/-- daysInMonth gives the day-count Go time.Parse validates day numbers against. -/
def daysInMonth (y m : Int) : Int :=
  if m = 2 then (if isLeapYear y then 29 else 28)
  else if m = 4 ∨ m = 6 ∨ m = 9 ∨ m = 11 then 30
  else 31

/-- digitsGo reads exactly n ASCII digits as a number, as Go time.Parse does
for a fixed-width layout element; returns none on any non-digit. -/
def digitsGo : Nat → List Char → Option (Int × List Char)
  | 0, cs => some (0, cs)
  | Nat.succ k, c :: cs =>
    if c.isDigit then
      match digitsGo k cs with
      | some (v, rest) => some (((c.toNat : Int) - 48) * (10 ^ k : Nat) + v, rest)
      | none => none
    else none
  | Nat.succ _, [] => none

/-- parseDate is Go time.Parse with the fixed layout 20060102T150405Z: four
digit year, two digit month, day, literal T, hour, minute, second, literal Z,
with range validation; the result is Unix seconds in UTC. -/
def parseDate (s : String) : Option Int :=
  match digitsGo 4 s.toList with
  | none => none
  | some (y, r1) =>
    match digitsGo 2 r1 with
    | none => none
    | some (mo, r2) =>
      match digitsGo 2 r2 with
      | none => none
      | some (d, r3) =>
        match r3 with
        | 'T' :: r4 =>
          match digitsGo 2 r4 with
          | none => none
          | some (h, r5) =>
            match digitsGo 2 r5 with
            | none => none
            | some (mi, r6) =>
              match digitsGo 2 r6 with
              | none => none
              | some (sec, r7) =>
                match r7 with
                | ['Z'] =>
                  if 1 ≤ mo ∧ mo ≤ 12 ∧ 1 ≤ d ∧ d ≤ daysInMonth y mo ∧
                      h ≤ 23 ∧ mi ≤ 59 ∧ sec ≤ 59 then
                    some (daysFromCivil y mo d * 86400 + h * 3600 + mi * 60 + sec)
                  else none
                | _ => none
        | _ => none

/-- hexDigit renders one hexadecimal digit (lower case, as Go json). -/
def hexDigit (n : Nat) : Char :=
  if n < 10 then Char.ofNat (48 + n) else Char.ofNat (87 + n)

/-- jsonEscapeChar is the per-character escaping of Go encoding/json (with its
default HTML escaping of angle brackets and ampersand). -/
def jsonEscapeChar (c : Char) : String :=
  if c = '"' then "\\\""
  else if c = '\\' then "\\\\"
  else if c = '\n' then "\\n"
  else if c = '\r' then "\\r"
  else if c = '\t' then "\\t"
  else if c = '<' then "\\u003c"
  else if c = '>' then "\\u003e"
  else if c = '&' then "\\u0026"
  else if c.toNat < 32 then
    "\\u00" ++ String.singleton (hexDigit (c.toNat / 16)) ++ String.singleton (hexDigit (c.toNat % 16))
  else if c.toNat = 8232 then "\\u2028"
  else if c.toNat = 8233 then "\\u2029"
  else String.singleton c

/-- jsonQuote renders a Go json string literal. -/
def jsonQuote (s : String) : String :=
  "\"" ++ String.join (s.toList.map jsonEscapeChar) ++ "\""

/-- joinComma joins rendered JSON items with commas. -/
def joinComma : List String → String
  | [] => ""
  | [x] => x
  | x :: rest => x ++ "," ++ joinComma rest

/-- renderStrArray renders a Go []string as a JSON array. -/
def renderStrArray (xs : List String) : String :=
  "[" ++ joinComma (xs.map jsonQuote) ++ "]"

/-- insertPair inserts into a key-sorted pair list. -/
def insertPair (p : String × String) : List (String × String) → List (String × String)
  | [] => [p]
  | q :: rest => if p.1 ≤ q.1 then p :: q :: rest else q :: insertPair p rest

/-- sortPairs sorts rendered fields by key, as Go json.Marshal sorts map keys. -/
def sortPairs : List (String × String) → List (String × String)
  | [] => []
  | p :: rest => insertPair p (sortPairs rest)

/-- composeJSON converts a task to its canonical JSON representation
(ComposeJSON in pkg/task/task.go; the Task implementation file of the current
layout is identical on every branch below).  Attributes named
annotation_<epoch> are flattened into an annotations array; date attributes
are rendered in DateLayout; numeric ones as numbers; tags as an array split
on commas.  For depends the source computes strings.Split(value, ",") and
then immediately overwrites that entry with the plain comma-joined string, so
the emitted value is the JSON string (the split is dead code).  Empty plain
string values are omitted.  json.Marshal sorts the object keys. -/
def composeJSON (t : Task) : String :=
  let step := fun (acc : List (String × String) × List String) (p : String × String) =>
    let n := p.1
    let v := p.2
    if strStartsWith n "annotation_" then
      match atoiGo (n.drop 11) with
      | none => acc
      | some epoch =>
        (acc.1,
         acc.2 ++ ["\x7b\"description\":" ++ jsonQuote v ++ ",\"entry\":" ++
           jsonQuote (formatDate epoch) ++ "\x7d"])
    else if attributeTypes n = "date" then
      (acc.1 ++ [(n, jsonQuote (formatDate (t.GetDate n)))], acc.2)
    else if attributeTypes n = "numeric" then
      (acc.1 ++ [(n, toString (t.GetInt n))], acc.2)
    else if n = "tags" then
      (acc.1 ++ [(n, renderStrArray (v.splitOn ","))], acc.2)
    else if n = "depends" then
      (acc.1 ++ [(n, jsonQuote v)], acc.2)
    else if v.length > 0 then
      (acc.1 ++ [(n, jsonQuote v)], acc.2)
    else acc
  let r := t.data.foldl step ([], [])
  let pairs :=
    if r.2.length > 0 then r.1 ++ [("annotations", "[" ++ joinComma r.2 ++ "]")] else r.1
  "\x7b" ++ joinComma ((sortPairs pairs).map (fun p => jsonQuote p.1 ++ ":" ++ p.2)) ++ "\x7d"

/-- findKeyIdx is the forward scan of findBranchPoint: the index of the first
log line equal to the key, or -1. -/
def findKeyIdx : List String → String → Int → Int
  | [], _, _ => -1
  | v :: rest, key, idx => if v = key then idx else findKeyIdx rest key (idx + 1)

/-- findBranchPoint of task/server.go: an empty key means a first-time sync
(branch point 0); otherwise the log is scanned for a line equal to the key. -/
def findBranchPoint (data : List String) (key : String) : Int :=
  if key = "" then 0 else findKeyIdx data key 0

/-- findBranchPointPkg is the variant in pkg/task/server/server.go (the file
kept in this repository next to the task/server.go one), which also maps the
nil UUID to branch point 0. -/
def findBranchPointPkg (data : List String) (key : String) : Int :=
  if key = "" ∨ key = "00000000-0000-0000-0000-000000000000" then 0
  else findKeyIdx data key 0

/-- extractSubsetLoop parses every task line (a line starting with a brace) of
the given log suffix; a parse failure aborts. -/
def extractSubsetLoop (parse : String → Except String Task) :
    List String → Except String (List Task)
  | [] => .ok []
  | line :: rest =>
    if strStartsWith line "\x7b" then
      match parse line with
      | .error e => .error e
      | .ok t =>
        match extractSubsetLoop parse rest with
        | .error e => .error e
        | .ok ts => .ok (t :: ts)
    else extractSubsetLoop parse rest

/-- extractSubset of task/server.go: the task lines at indices at or beyond
the branch point (the Go index loop from branchPoint to the end is the loop
over the dropped suffix; when branchPoint is past the end the subset is empty). -/
def extractSubset (parse : String → Except String Task)
    (data : List String) (branchPoint : Nat) : Except String (List Task) :=
  extractSubsetLoop parse (data.drop branchPoint)

/-- taskContains of task/server.go: whether some task in the list carries the
given attribute value. -/
def taskContains : List Task → String → String → Bool
  | [], _, _ => false
  | t :: ts, name, value => if t.Get name = value then true else taskContains ts name value

/-- findCommonAncestorLoop walks the log backwards from index i, looking for
the most recent task line whose uuid matches (findCommonAncestor in
task/server.go; the callers only pass in-range indices, out-of-range reads
are modelled as ""). -/
def findCommonAncestorLoop (parse : String → Except String Task)
    (data : List String) (u : String) : Nat → Except String Nat
  | 0 =>
    let line := data.getD 0 ""
    if strStartsWith line "\x7b" then
      match parse line with
      | .error e => .error e
      | .ok t =>
        if t.Get "uuid" = u then .ok 0
        else
          .error ("could not find common ancestor for \"" ++ u ++
            "\". Did you skip the 'task sync init' requirement?")
    else
      .error ("could not find common ancestor for \"" ++ u ++
        "\". Did you skip the 'task sync init' requirement?")
  | Nat.succ j =>
    let line := data.getD (Nat.succ j) ""
    if strStartsWith line "\x7b" then
      match parse line with
      | .error e => .error e
      | .ok t =>
        if t.Get "uuid" = u then .ok (Nat.succ j)
        else findCommonAncestorLoop parse data u j
    else findCommonAncestorLoop parse data u j

/-- getClientMods extracts the client tasks with the given UUID, keeping the
sequence (task/server.go; the Go append loop builds exactly this filter). -/
def getClientMods (data : List Task) (u : String) : List Task :=
  data.filter (fun t => t.Get "uuid" == u)

/-- getServerModsLoop parses the task lines of a log suffix and keeps those
with the given UUID; a parse failure aborts. -/
def getServerModsLoop (parse : String → Except String Task) (u : String) :
    List String → Except String (List Task)
  | [] => .ok []
  | line :: rest =>
    if strStartsWith line "\x7b" then
      match parse line with
      | .error e => .error e
      | .ok t =>
        match getServerModsLoop parse u rest with
        | .error e => .error e
        | .ok ts => .ok (if t.Get "uuid" = u then t :: ts else ts)
    else getServerModsLoop parse u rest

/-- getServerMods of task/server.go: the server tasks with the given UUID at
indices strictly greater than the ancestor. -/
def getServerMods (parse : String → Except String Task)
    (data : List String) (u : String) (ancestor : Nat) : Except String (List Task) :=
  getServerModsLoop parse u (data.drop (ancestor + 1))

/-- generatePayload of task/server.go: the subset tasks' JSON, the addition
lines, then the key, each terminated by a newline. -/
def generatePayload (subset : List Task) (additions : List String) (key : String) : String :=
  String.join (subset.map (fun s => composeJSON s ++ "\n")) ++
    String.join (additions.map (fun a => a ++ "\n")) ++ key ++ "\n"

/-- getResponsePayload of task/server.go: full payload when there is outgoing
data, otherwise just the latest key. -/
def getResponsePayload (serverSubset : List Task) (newClientData : List String)
    (newSyncKey : String) : String :=
  if serverSubset.length > 0 ∨ newClientData.length > 0 then
    generatePayload serverSubset newClientData newSyncKey
  else newSyncKey ++ "\n"

/-- lastKeyScan is the backward scan of sync that reuses the most recent
non-task line as the sync key (the empty string when there is none). -/
def lastKeyScan (data : List String) : String :=
  match data.reverse.find? (fun line => !(strStartsWith line "\x7b")) with
  | some k => k
  | none => ""

/-- SyncResult models the observable outcome of one sync call: the lines
handed to ra.Append (none when Append is not invoked) and the code, status
and payload of the response message. -/
structure SyncResult where
  appended : Option (List String)
  code : String
  status : String
  payload : String
deriving DecidableEq

/-- NewResponseMessage of pkg/task/message: a response with the given code and
status headers and an empty payload (no append happens on these paths). -/
def NewResponseMessage (code status : String) : SyncResult :=
  ⟨none, code, status, ""⟩

/-- syncLoop is the per-incoming-task loop of sync (task/server.go): a task
whose UUID is in the server subset is merged once (memoized in alreadySeen),
any other task is stored unmodified and not returned to the client. -/
def syncLoop (parse : String → Except String Task) (serverData : List String)
    (serverSubset : List Task) (branchPoint : Nat) (clientData : List Task) :
    List Task → List String → List String → List String →
    Except String (List String × List String)
  | [], _, nsd, ncd => .ok (nsd, ncd)
  | ct :: rest, seen, nsd, ncd =>
    let u := ct.Get "uuid"
    if taskContains serverSubset "uuid" u then
      if sliceContains seen u then
        syncLoop parse serverData serverSubset branchPoint clientData rest seen nsd ncd
      else
        match findCommonAncestorLoop parse serverData u branchPoint with
        | .error e => .error e
        | .ok ca =>
          let clientMods := getClientMods clientData u
          match getServerMods parse serverData u ca with
          | .error e => .error e
          | .ok serverMods =>
            match parse (serverData.getD ca "") with
            | .error e => .error e
            | .ok combined =>
              let combinedJSON := composeJSON (mergeSort clientMods serverMods combined)
              syncLoop parse serverData serverSubset branchPoint clientData rest
                (seen ++ [u]) (nsd ++ [combinedJSON ++ "\n"]) (ncd ++ [combinedJSON])
    else
      syncLoop parse serverData serverSubset branchPoint clientData rest
        seen (nsd ++ [composeJSON ct ++ "\n"]) ncd

/-- sync of task/server.go, over the already-read server log and the parsed
client payload (the key reported by the client and its task snapshots), with
the freshly minted v4 UUID passed in as freshKey.  The task-line parser is a
parameter; every theorem below holds for all parsers.  Storage writes are
modelled by the appended field (the Append failure path adds nothing the
claims mention and is not modelled). -/
def sync (parse : String → Except String Task) (serverData : List String)
    (tx : String) (clientData : List Task) (freshKey : String) : SyncResult :=
  let branchPoint := findBranchPoint serverData tx
  if branchPoint = -1 then
    NewResponseMessage "500"
      "Could not find the last sync transaction. Did you skip the 'task sync init' requirement?"
  else
    match extractSubset parse serverData branchPoint.toNat with
    | .error e => NewResponseMessage "500" e
    | .ok serverSubset =>
      match syncLoop parse serverData serverSubset branchPoint.toNat clientData
          clientData [] [] [] with
      | .error e => NewResponseMessage "500" e
      | .ok (nsd, ncd) =>
        if nsd.length > 0 then
          ⟨some (nsd ++ [freshKey ++ "\n"]), "200", ErrorCodes 200,
            getResponsePayload serverSubset ncd freshKey⟩
        else
          let newSyncKey := lastKeyScan serverData
          if serverSubset.length > 0 ∨ ncd.length > 0 then
            ⟨none, "200", ErrorCodes 200, getResponsePayload serverSubset ncd newSyncKey⟩
          else
            ⟨none, "201", ErrorCodes 201, getResponsePayload serverSubset ncd newSyncKey⟩

/-- RequestLimitInBytes is the maximum size allowed for an incoming message
(task/server.go). -/
def RequestLimitInBytes : Nat := 1048576

/-- readChunk models one Go io.Reader Read call over a chunked byte stream: it
returns at most n bytes, taken from the first pending chunk (a stream such as
a network connection may deliver fewer bytes than requested without error);
the error flag is set only at end of stream. -/
def readChunk (chunks : List (List Nat)) (n : Nat) :
    List Nat × Bool × List (List Nat) :=
  if n = 0 then ([], false, chunks)
  else
    match chunks with
    | [] => ([], true, [])
    | c :: rest =>
      if c.length ≤ n then (c, false, rest) else (c.take n, false, c.drop n :: rest)

/-- bigEndian4 decodes a big-endian 4-byte length (binary.BigEndian.Uint32). -/
def bigEndian4 (b : List Nat) : Nat :=
  match b with
  | [b0, b1, b2, b3] => b0 * 16777216 + b1 * 65536 + b2 * 256 + b3
  | _ => 0

/-- receiveMessage of task/server.go over a chunked stream, returning the raw
message body handed to NewMessage.  The code reads the 4 length bytes, checks
the limit, allocates a zeroed buffer of length messageSize-4 and issues a
single Read into it, checking only the error and ignoring the count, so a
partial read leaves the zero-initialized tail in the buffer.  (For
messageSize below 4 the Go code would panic in make; the subtraction is
truncated here and that path is not used by any theorem.) -/
def receiveMessage (chunks : List (List Nat)) : Except String (List Nat) :=
  let r1 := readChunk chunks 4
  if r1.2.1 = true ∨ r1.1.length ≠ 4 then .error "reading size"
  else
    let messageSize := bigEndian4 r1.1
    if messageSize > RequestLimitInBytes then .error "message size limit exceeded"
    else
      let bodyLen := messageSize - 4
      let r2 := readChunk r1.2.2 bodyLen
      if r2.2.1 = true then .error "reading client"
      else .ok (r2.1 ++ List.replicate (bodyLen - r2.1.length) 0)

/-- isCont recognizes a UTF-8 continuation byte. -/
def isCont (b : Nat) : Bool := 128 ≤ b ∧ b ≤ 191

/-- decodeRune is Go utf8.DecodeRuneInString on a byte list: the decoded code
point and its size, (0xFFFD, 0) on empty input and (0xFFFD, 1) on any invalid
or incomplete encoding (surrogates and overlong forms rejected). -/
def decodeRune : List Nat → Nat × Nat
  | [] => (65533, 0)
  | b0 :: rest =>
    if b0 < 128 then (b0, 1)
    else if 194 ≤ b0 ∧ b0 ≤ 223 then
      match rest with
      | b1 :: _ => if isCont b1 then ((b0 - 192) * 64 + (b1 - 128), 2) else (65533, 1)
      | [] => (65533, 1)
    else if 224 ≤ b0 ∧ b0 ≤ 239 then
      match rest with
      | b1 :: b2 :: _ =>
        let lo := if b0 = 224 then 160 else 128
        let hi := if b0 = 237 then 159 else 191
        if lo ≤ b1 ∧ b1 ≤ hi ∧ isCont b2 then
          ((b0 - 224) * 4096 + (b1 - 128) * 64 + (b2 - 128), 3)
        else (65533, 1)
      | _ => (65533, 1)
    else if 240 ≤ b0 ∧ b0 ≤ 244 then
      match rest with
      | b1 :: b2 :: b3 :: _ =>
        let lo := if b0 = 240 then 144 else 128
        let hi := if b0 = 244 then 143 else 191
        if lo ≤ b1 ∧ b1 ≤ hi ∧ isCont b2 ∧ isCont b3 then
          ((b0 - 240) * 262144 + (b1 - 128) * 4096 + (b2 - 128) * 64 + (b3 - 128), 4)
        else (65533, 1)
      | _ => (65533, 1)
    else (65533, 1)

/-- encodeRune is the UTF-8 encoding of a code point (Go string(rune)). -/
def encodeRune (c : Nat) : List Nat :=
  if c < 128 then [c]
  else if c < 2048 then [192 + c / 64, 128 + c % 64]
  else if c < 65536 then [224 + c / 4096, 128 + (c / 64) % 64, 128 + c % 64]
  else [240 + c / 262144, 128 + (c / 4096) % 64, 128 + (c / 64) % 64, 128 + c % 64]

/-- validUtf8Fuel decodes runes until the input is exhausted or invalid. -/
def validUtf8Fuel : Nat → List Nat → Bool
  | _, [] => true
  | 0, _ => false
  | Nat.succ fuel, bs =>
    let dr := decodeRune bs
    if dr.1 = 65533 then false else validUtf8Fuel fuel (bs.drop dr.2)

/-- isValidUtf8 checks that a byte list is well-formed UTF-8 that does not
contain the replacement character. -/
def isValidUtf8 (bs : List Nat) : Bool := validUtf8Fuel bs.length bs

/-- indexOfSubFrom is the scan underlying Go strings.Index. -/
def indexOfSubFrom : List Nat → List Nat → Nat → Int
  | [], pat, i => if pat.isPrefixOf ([] : List Nat) then Int.ofNat i else -1
  | b :: rest, pat, i =>
    if pat.isPrefixOf (b :: rest) then Int.ofNat i else indexOfSubFrom rest pat (i + 1)

/-- indexOfSub is Go strings.Index: the byte index of the first occurrence of
pat in s, or -1. -/
def indexOfSub (s pat : List Nat) : Int := indexOfSubFrom s pat 0

/-- extractBytes is the byte slice value[start:i]. -/
def extractBytes (value : List Nat) (start i : Nat) : List Nat :=
  (value.drop start).take (i - start)

/-- escapeScan is the backtracking inner loop of GetQuoted: starting at byte
position j it toggles the escape flag for each backslash run byte at or after
start, stopping at the first non-backslash (or invalid) decode. -/
def escapeScan (value : List Nat) (start : Nat) : Nat → Int → Bool → Bool
  | 0, _, isEsc => isEsc
  | Nat.succ fuel, j, isEsc =>
    if j ≥ (start : Int) then
      let dr := decodeRune (value.drop j.toNat)
      if dr.1 = 65533 ∨ dr.1 ≠ 92 then isEsc
      else escapeScan value start fuel (j - (dr.2 : Int)) (!isEsc)
    else isEsc

/-- getQuotedLoop is the main loop of Pig.GetQuoted (pkg/task/parser.go): find
the next occurrence of the quote bytes, handle the empty quote, decode the
byte just before the candidate (the source decodes at byte index i-1, which
lands inside the previous rune when that rune is multi-byte), run the escape
backtracking when it is a backslash, and otherwise return the interior bytes
and the cursor set past the closing quote.  The fuel only bounds the loop;
value.length + 1 always suffices. -/
def getQuotedLoop (value : List Nat) (qbytes : List Nat) (start : Nat) :
    Nat → Nat → Option (List Nat × Nat)
  | 0, _ => none
  | Nat.succ fuel, i =>
    let k := indexOfSub (value.drop i) qbytes
    if k < 0 then none
    else
      let i2 := i + k.toNat
      if i2 = start then some ([], start + qbytes.length)
      else
        let dr := decodeRune (value.drop (i2 - 1))
        if dr.1 = 65533 then none
        else if dr.1 = 92 then
          let isEscapedQuote :=
            escapeScan value start (value.length + 1)
              (Int.ofNat i2 - 2 * Int.ofNat qbytes.length) true
          if isEscapedQuote then getQuotedLoop value qbytes start fuel (i2 + dr.2)
          else some (extractBytes value start i2, i2 + qbytes.length)
        else some (extractBytes value start i2, i2 + qbytes.length)

/-- GetQuoted of pkg/task/parser.go at byte granularity: given the quote code
point, the input bytes and the cursor, it returns the bytes written to the
sink and the new cursor, or none where the Go method returns false. -/
def GetQuoted (quote : Nat) (value : List Nat) (idx : Nat) : Option (List Nat × Nat) :=
  let dr := decodeRune (value.drop idx)
  if dr.1 = 65533 ∨ dr.1 ≠ quote then none
  else
    let start := idx + dr.2
    getQuotedLoop value (encodeRune quote) start (value.length + 1) start

/-- FSState is the per-user slice of the filesystem the repo Append touches:
the transaction log tx.data and the temp file tx.tmp.data (none = missing). -/
structure FSState where
  txData : Option (List String)
  txTmp : Option (List String)
deriving DecidableEq

/-- TxStep is one atomic filesystem action of the repo Append sequence. -/
inductive TxStep where
  | prepare
  | write (lines : List String)
  | rename
deriving DecidableEq

/-- runStep executes one Append action (repo Append): prepare copies tx.data
over tx.tmp.data (os.Create truncates any previous temp), or creates the temp
when tx.data is missing (O_CREATE keeps an existing temp; a stale temp's
byte-offset overwrite is not representable at line granularity, so theorems
about this branch assume no stale temp, which also matches the documented
transient-only lifetime of tx.tmp.data); write appends the lines to the open
temp (O_APPEND); rename moves the temp over tx.data (a missing temp leaves
the state unchanged, as the failed rename changes nothing). -/
def runStep (fs : FSState) : TxStep → FSState
  | .prepare =>
    match fs.txData with
    | some content => ⟨fs.txData, some content⟩
    | none => ⟨none, some (fs.txTmp.getD [])⟩
  | .write lines =>
    match fs.txTmp with
    | some t => ⟨fs.txData, some (t ++ lines)⟩
    | none => fs
  | .rename =>
    match fs.txTmp with
    | some t => ⟨some t, none⟩
    | none => fs

/-- runSteps folds a schedule of Append actions over the filesystem state. -/
def runSteps (fs : FSState) (steps : List TxStep) : FSState :=
  steps.foldl runStep fs

/-- appendSteps is the action sequence of one repo Append call: prepare the
temp file, write the lines, close, then rename. -/
def appendSteps (lines : List String) : List TxStep :=
  [.prepare, .write lines, .rename]

/-- Append of the repo data file: stat tx.data; when it is missing, open the
temp with O_CREATE (an open failure returns before anything is created); when
it exists, copy it to the temp and open the temp in append mode (an open
failure returns after the copy); then write all lines, close, and rename the
temp over tx.data.  The temp-open outcome is the oracle parameter; the first
component is the returned error. -/
def Append (fs : FSState) (lines : List String) (tmpOpenFails : Bool) :
    Option String × FSState :=
  match fs.txData with
  | none =>
    if tmpOpenFails then (some "open tx file", fs)
    else (none, runSteps fs (appendSteps lines))
  | some _ =>
    if tmpOpenFails then (some "open tx file", runStep fs .prepare)
    else (none, runSteps fs (appendSteps lines))

/-- JValue is the generic value a Go json.Unmarshal into interface produces:
strings, numbers, booleans, null, arrays and objects.  JSON numbers unmarshal
as float64; the modelled code paths only format them with Sprintf, which
prints integral float64 values without a decimal point, so Int is used. -/
inductive JValue where
  | str (s : String)
  | num (n : Int)
  | bool (b : Bool)
  | null
  | arr (xs : List JValue)
  | obj (fields : List (String × JValue))

mutual
/-- govFormat is Go fmt.Sprintf with the %v verb on an unmarshaled JSON value;
a nil interface prints as the literal <nil>. -/
def govFormat : JValue → String
  | .str s => s
  | .num n => toString n
  | .bool b => if b then "true" else "false"
  | .null => "<nil>"
  | .arr xs => "[" ++ govFormatList xs ++ "]"
  | .obj fields => "map[" ++ govFormatFields fields ++ "]"

/-- govFormatList renders array elements space-separated, as %v does. -/
def govFormatList : List JValue → String
  | [] => ""
  | [x] => govFormat x
  | x :: rest => govFormat x ++ " " ++ govFormatList rest

/-- govFormatFields renders map entries as key:value space-separated. -/
def govFormatFields : List (String × JValue) → String
  | [] => ""
  | [p] => p.1 ++ ":" ++ govFormat p.2
  | p :: rest => p.1 ++ ":" ++ govFormat p.2 ++ " " ++ govFormatFields rest
end

/-- lookupJ is the Go map read on the unmarshaled object. -/
def lookupJ (fields : List (String × JValue)) (name : String) : Option JValue :=
  match fields.find? (fun p => p.1 == name) with
  | some p => some p.2
  | none => none

/-- govFormatOpt formats a possibly missing map entry: a missing key yields
the nil interface, which %v prints as <nil>. -/
def govFormatOpt : Option JValue → String
  | none => "<nil>"
  | some v => govFormat v

/-- joinWith is Go strings.Join. -/
def joinWith (sep : String) : List String → String
  | [] => ""
  | [x] => x
  | x :: rest => x ++ sep ++ joinWith sep rest

/-- parseTags of pkg/task/task.go: a JSON array of strings, or (Mirakel
compatibility) a single string. -/
def parseTags (v : JValue) : Except String (List String) :=
  match v with
  | .arr xs => .ok (xs.map govFormat)
  | .str s => .ok [s]
  | _ => .error ("invalid type for field tags: " ++ govFormat v)

/-- addTag of pkg/task/task.go: split the current comma-joined tags, skip an
existing tag, otherwise append and re-join. -/
def addTag (t : Task) (tag : String) : Task :=
  let tags := if (t.Get "tags").length > 0 then (t.Get "tags").splitOn "," else []
  if tags.contains tag then t
  else t.Set "tags" (joinWith "," (tags ++ [tag]))

/-- parseDepends of pkg/task/task.go: an array of strings or a single
comma-separated string. -/
def parseDepends (v : JValue) : Except String (List String) :=
  match v with
  | .arr xs => .ok (xs.map govFormat)
  | .str s => .ok (s.splitOn ",")
  | _ => .error ("depends type not match: " ++ govFormat v)

/-- listContainsSub is the scan underlying Go strings.Contains. -/
def listContainsSub : List Char → List Char → Bool
  | [], pat => pat.isPrefixOf ([] : List Char)
  | c :: rest, pat => pat.isPrefixOf (c :: rest) || listContainsSub rest pat

/-- containsSubstr is Go strings.Contains. -/
def containsSubstr (s sub : String) : Bool :=
  listContainsSub s.toList sub.toList

/-- addDependency of pkg/task/task.go: a task cannot depend on itself; a
dependency already occurring as a substring of the current list is skipped. -/
def addDependency (t : Task) (dep : String) : Except String Task :=
  if dep = t.Get "uuid" then .error "a task cannot be dependent on itself"
  else
    let depends := t.Get "depends"
    if depends ≠ "" then
      if !(containsSubstr depends dep) then .ok (t.Set "depends" (depends ++ "," ++ dep))
      else .ok t
    else .ok (t.Set "depends" dep)

/-- depsFold applies addDependency to each parsed dependency, stopping at the
first error (the loop in parseJSON). -/
def depsFold (t : Task) : List String → Except String Task
  | [] => .ok t
  | d :: rest =>
    match addDependency t d with
    | .error e => .error e
    | .ok t' => depsFold t' rest

/-- parseAnnoationsLoop converts each annotation object into the flattened
pseudo-attribute pair (the loop of parseAnnoations in pkg/task/task.go, whose
name keeps the source spelling); a missing entry or description, a bad date,
and a non-object element are fatal. -/
def parseAnnoationsLoop : List JValue → Except String (List (String × String))
  | [] => .ok []
  | item :: rest =>
    match item with
    | .obj fields =>
      match lookupJ fields "entry" with
      | none => .error "annotation is missing an entry date"
      | some when' =>
        match lookupJ fields "description" with
        | none => .error "annotation is missing a description"
        | some what =>
          match parseDate (govFormat when') with
          | none => .error ("invalid date format \"" ++ govFormat when' ++ "\"")
          | some ts =>
            match parseAnnoationsLoop rest with
            | .error e => .error e
            | .ok es => .ok (("annotation_" ++ toString ts, govFormat what) :: es)
    | _ => .error "annotations type inside list does not match"

/-- parseAnnoations of pkg/task/task.go: annotations must be an array. -/
def parseAnnoations (v : JValue) : Except String (List (String × String)) :=
  match v with
  | .arr items => parseAnnoationsLoop items
  | _ => .error "annotations type does not match"

/-- processField is one iteration of the field loop of parseJSON
(pkg/task/task.go): recognized columns dispatch on name and type (id and
urgency dropped, modification renamed to modified, dates converted to epoch,
tags and depends accumulated), annotations are flattened, and unknown
attributes are preserved verbatim. -/
def processField (t : Task) (n : String) (v : JValue) : Except String Task :=
  if attributeTypes n ≠ "" then
    if n = "id" then .ok t
    else if n = "urgency" then .ok t
    else if n = "modification" then
      match parseDate (govFormat v) with
      | none => .error ("parsing date in " ++ n ++ " field, " ++ govFormat v)
      | some ts => .ok (t.Set "modified" (toString ts))
    else if attributeTypes n = "date" then
      match parseDate (govFormat v) with
      | none => .error ("parsing date in " ++ n ++ " field, " ++ govFormat v)
      | some ts => .ok (t.Set n (toString ts))
    else if n = "tags" then
      match parseTags v with
      | .error e => .error e
      | .ok tags => .ok (tags.foldl addTag t)
    else if n = "depends" then
      match parseDepends v with
      | .error e => .error e
      | .ok deps => depsFold t deps
    else .ok (t.Set n (govFormat v))
  else if n = "annotations" then
    match parseAnnoations v with
    | .error e => .error e
    | .ok entries => .ok (entries.foldl (fun acc e => acc.Set e.1 e.2) t)
  else .ok (t.Set n (govFormat v))

/-- processFields folds processField over the object's fields, stopping at
the first error. -/
def processFields (t : Task) : List (String × JValue) → Except String Task
  | [] => .ok t
  | (n, v) :: rest =>
    match processField t n v with
    | .error e => .error e
    | .ok t' => processFields t' rest

/-- parseJSON of pkg/task/task.go over the unmarshaled object: the task
starts with its uuid attribute set to Sprintf of the object's uuid entry
(the literal <nil> when the field is missing), then each field is processed. -/
def parseJSON (fields : List (String × JValue)) : Except String Task :=
  processFields ⟨[("uuid", govFormatOpt (lookupJ fields "uuid"))]⟩ fields

/-! Helper lemmas about the Task map operations. -/

theorem sliceContains_iff (l : List String) (v : String) :
    sliceContains l v = true ↔ v ∈ l := by
  induction l with
  | nil => simp [sliceContains]
  | cons a rest ih =>
    by_cases h : a = v
    · subst h; simp [sliceContains]
    · simp only [sliceContains, if_neg h, ih, List.mem_cons]
      constructor
      · exact fun hm => Or.inr hm
      · rintro (hva | hm)
        · exact absurd hva.symm h
        · exact hm

theorem find?_data_set_self (data : List (String × String)) (n v : String) :
    (List.map (fun p => if p.1 == n then (n, v) else p) data).find? (fun p => p.1 == n) =
      ((data.find? (fun p => p.1 == n)).map (fun _ => (n, v))) := by
  induction data with
  | nil => rfl
  | cons a rest ih =>
    rw [List.map_cons]
    by_cases h : a.1 = n
    · rw [if_pos (by simp [h]), List.find?_cons_of_pos _ (by simp),
        List.find?_cons_of_pos _ (by simp [h])]
      rfl
    · rw [if_neg (by simp [h]), List.find?_cons_of_neg _ (by simp [h]),
        List.find?_cons_of_neg _ (by simp [h])]
      exact ih

theorem find?_data_set_ne (data : List (String × String)) (n v m : String) (hmn : m ≠ n) :
    (List.map (fun p => if p.1 == n then (n, v) else p) data).find? (fun p => p.1 == m) =
      data.find? (fun p => p.1 == m) := by
  induction data with
  | nil => rfl
  | cons a rest ih =>
    rw [List.map_cons]
    by_cases h : a.1 = n
    · have hm : ¬ (a.1 = m) := by rw [h]; exact fun hc => hmn hc.symm
      rw [if_pos (by simp [h]),
        List.find?_cons_of_neg _ (by simp; exact fun hc => hmn hc.symm),
        List.find?_cons_of_neg _ (by simp [hm])]
      exact ih
    · by_cases h2 : a.1 = m
      · rw [if_neg (by simp [h]), List.find?_cons_of_pos _ (by simp [h2]),
          List.find?_cons_of_pos _ (by simp [h2])]
      · rw [if_neg (by simp [h]), List.find?_cons_of_neg _ (by simp [h2]),
          List.find?_cons_of_neg _ (by simp [h2])]
        exact ih

theorem get_set_self (t : Task) (n v : String) : (t.Set n v).Get n = v := by
  cases hf : t.data.find? (fun p => p.1 == n) with
  | some p =>
    simp only [Task.Set, Task.Has, hf, Option.isSome_some, if_true]
    simp only [Task.Get, find?_data_set_self, hf, Option.map_some']
  | none =>
    simp only [Task.Set, Task.Has, hf, Option.isSome_none, Bool.false_eq_true, if_false]
    simp only [Task.Get, List.find?_append, hf, Option.none_or]
    rw [List.find?_cons_of_pos _ (by simp)]

theorem has_set_self (t : Task) (n v : String) : (t.Set n v).Has n = true := by
  cases hf : t.data.find? (fun p => p.1 == n) with
  | some p =>
    simp only [Task.Set, Task.Has, hf, Option.isSome_some, if_true]
    simp only [Task.Has, find?_data_set_self, hf, Option.map_some', Option.isSome_some]
  | none =>
    simp only [Task.Set, Task.Has, hf, Option.isSome_none, Bool.false_eq_true, if_false]
    simp only [Task.Has, List.find?_append, hf, Option.none_or]
    rw [List.find?_cons_of_pos _ (by simp)]
    rfl

theorem get_set_ne (t : Task) (n v m : String) (hmn : m ≠ n) :
    (t.Set n v).Get m = t.Get m := by
  cases hf : t.data.find? (fun p => p.1 == n) with
  | some p =>
    simp only [Task.Set, Task.Has, hf, Option.isSome_some, if_true]
    simp only [Task.Get, find?_data_set_ne t.data n v m hmn]
  | none =>
    simp only [Task.Set, Task.Has, hf, Option.isSome_none, Bool.false_eq_true, if_false]
    simp only [Task.Get, List.find?_append]
    rw [List.find?_cons_of_neg _ (by simp; exact fun hc => hmn hc.symm)]
    cases hg : t.data.find? (fun p => p.1 == m) <;> simp [hg]

theorem has_set_ne (t : Task) (n v m : String) (hmn : m ≠ n) :
    (t.Set n v).Has m = t.Has m := by
  cases hf : t.data.find? (fun p => p.1 == n) with
  | some p =>
    simp only [Task.Set, Task.Has, hf, Option.isSome_some, if_true]
    simp only [Task.Has, find?_data_set_ne t.data n v m hmn]
  | none =>
    simp only [Task.Set, Task.Has, hf, Option.isSome_none, Bool.false_eq_true, if_false]
    simp only [Task.Has, List.find?_append]
    rw [List.find?_cons_of_neg _ (by simp; exact fun hc => hmn hc.symm)]
    cases hg : t.data.find? (fun p => p.1 == m) <;> simp [hg]

theorem has_remove_self (t : Task) (n : String) : (t.Remove n).Has n = false := by
  unfold Task.Remove Task.Has
  cases hf : (t.data.filter (fun p => !(p.1 == n))).find? (fun p => p.1 == n) with
  | none => simp [hf]
  | some p =>
    have h1 := List.find?_some hf
    have h3 := (List.mem_filter.mp (List.mem_of_find?_eq_some hf)).2
    rw [h1] at h3
    simp at h3

theorem find?_filter_ne (data : List (String × String)) (n m : String) (hmn : m ≠ n) :
    (data.filter (fun p => !(p.1 == n))).find? (fun p => p.1 == m) =
      data.find? (fun p => p.1 == m) := by
  induction data with
  | nil => rfl
  | cons a rest ih =>
    by_cases h : a.1 = n
    · have hm : ¬ (a.1 = m) := by rw [h]; exact fun hc => hmn hc.symm
      rw [List.filter_cons_of_neg (by simp [h]),
        List.find?_cons_of_neg _ (by simp [hm])]
      exact ih
    · by_cases h2 : a.1 = m
      · rw [List.filter_cons_of_pos (by simp [h]), List.find?_cons_of_pos _ (by simp [h2]),
          List.find?_cons_of_pos _ (by simp [h2])]
      · rw [List.filter_cons_of_pos (by simp [h]), List.find?_cons_of_neg _ (by simp [h2]),
          List.find?_cons_of_neg _ (by simp [h2])]
        exact ih

theorem get_remove_ne (t : Task) (n m : String) (hmn : m ≠ n) :
    (t.Remove n).Get m = t.Get m := by
  unfold Task.Remove Task.Get
  rw [find?_filter_ne t.data n m hmn]

theorem has_remove_ne (t : Task) (n m : String) (hmn : m ≠ n) :
    (t.Remove n).Has m = t.Has m := by
  unfold Task.Remove Task.Has
  rw [find?_filter_ne t.data n m hmn]

theorem mem_attrNames_iff (t : Task) (x : String) :
    x ∈ t.GetAttrNames ↔ t.Has x = true := by
  simp only [Task.GetAttrNames, Task.Has, List.find?_isSome, List.mem_map]
  constructor
  · rintro ⟨p, hp, he⟩
    exact ⟨p, hp, by simp [he]⟩
  · rintro ⟨p, hp, he⟩
    exact ⟨p, hp, by simpa using he⟩

theorem foldl_remove_not_mem (l : List String) (x : String) (h : x ∉ l) (b : Task) :
    (l.foldl (fun b att => b.Remove att) b).Get x = b.Get x ∧
    (l.foldl (fun b att => b.Remove att) b).Has x = b.Has x := by
  induction l generalizing b with
  | nil => exact ⟨rfl, rfl⟩
  | cons a rest ih =>
    have hax : x ≠ a := fun hc => h (by simp [hc])
    have hrest : x ∉ rest := fun hc => h (by simp [hc])
    rw [List.foldl_cons]
    exact ⟨(ih hrest _).1.trans (get_remove_ne b a x hax),
      (ih hrest _).2.trans (has_remove_ne b a x hax)⟩

theorem foldl_remove_false (l : List String) (x : String) (b : Task)
    (h : b.Has x = false) :
    (l.foldl (fun b att => b.Remove att) b).Has x = false := by
  induction l generalizing b with
  | nil => exact h
  | cons a rest ih =>
    rw [List.foldl_cons]
    by_cases hax : x = a
    · subst hax
      exact ih _ (has_remove_self b x)
    · exact ih _ ((has_remove_ne b a x hax).trans h)

theorem foldl_remove_mem (l : List String) (x : String) (h : x ∈ l) (b : Task) :
    (l.foldl (fun b att => b.Remove att) b).Has x = false := by
  induction l generalizing b with
  | nil => cases h
  | cons a rest ih =>
    rw [List.foldl_cons]
    by_cases hax : x = a
    · subst hax
      exact foldl_remove_false rest x _ (has_remove_self b x)
    · exact ih (by cases h with
        | head => exact absurd rfl hax
        | tail _ hm => exact hm) _

theorem foldl_set_not_mem (to' : Task) (l : List String) (x : String) (h : x ∉ l) (b : Task) :
    (l.foldl (fun b att => b.Set att (to'.Get att)) b).Get x = b.Get x ∧
    (l.foldl (fun b att => b.Set att (to'.Get att)) b).Has x = b.Has x := by
  induction l generalizing b with
  | nil => exact ⟨rfl, rfl⟩
  | cons a rest ih =>
    have hax : x ≠ a := fun hc => h (by simp [hc])
    have hrest : x ∉ rest := fun hc => h (by simp [hc])
    rw [List.foldl_cons]
    exact ⟨(ih hrest _).1.trans (get_set_ne b a (to'.Get a) x hax),
      (ih hrest _).2.trans (has_set_ne b a (to'.Get a) x hax)⟩

theorem foldl_set_mem (to' : Task) (l : List String) (x : String) (h : x ∈ l) (b : Task) :
    (l.foldl (fun b att => b.Set att (to'.Get att)) b).Get x = to'.Get x ∧
    (l.foldl (fun b att => b.Set att (to'.Get att)) b).Has x = true := by
  induction l generalizing b with
  | nil => cases h
  | cons a rest ih =>
    rw [List.foldl_cons]
    by_cases hrest : x ∈ rest
    · exact ih hrest _
    · have hax : x = a := by
        cases h with
        | head => rfl
        | tail _ hm => exact absurd hm hrest
      subst hax
      have hn := foldl_set_not_mem to' rest x hrest (b.Set x (to'.Get x))
      exact ⟨hn.1.trans (get_set_self b x (to'.Get x)),
        hn.2.trans (has_set_self b x (to'.Get x))⟩

theorem foldl_cond_not_mem (from' to' : Task) (l : List String) (x : String)
    (h : x ∉ l) (b : Task) :
    (l.foldl (fun b att => if from'.Get att ≠ to'.Get att then b.Set att (to'.Get att) else b)
        b).Get x = b.Get x ∧
    (l.foldl (fun b att => if from'.Get att ≠ to'.Get att then b.Set att (to'.Get att) else b)
        b).Has x = b.Has x := by
  induction l generalizing b with
  | nil => exact ⟨rfl, rfl⟩
  | cons a rest ih =>
    have hax : x ≠ a := fun hc => h (by simp [hc])
    have hrest : x ∉ rest := fun hc => h (by simp [hc])
    rw [List.foldl_cons]
    by_cases hd : from'.Get a ≠ to'.Get a
    · rw [if_pos hd]
      exact ⟨(ih hrest _).1.trans (get_set_ne b a (to'.Get a) x hax),
        (ih hrest _).2.trans (has_set_ne b a (to'.Get a) x hax)⟩
    · rw [if_neg hd]
      exact ih hrest _

theorem foldl_cond_mem_diff (from' to' : Task) (l : List String) (x : String)
    (h : x ∈ l) (hd : from'.Get x ≠ to'.Get x) (b : Task) :
    (l.foldl (fun b att => if from'.Get att ≠ to'.Get att then b.Set att (to'.Get att) else b)
        b).Get x = to'.Get x ∧
    (l.foldl (fun b att => if from'.Get att ≠ to'.Get att then b.Set att (to'.Get att) else b)
        b).Has x = true := by
  induction l generalizing b with
  | nil => cases h
  | cons a rest ih =>
    rw [List.foldl_cons]
    by_cases hrest : x ∈ rest
    · exact ih hrest _
    · have hax : x = a := by
        cases h with
        | head => rfl
        | tail _ hm => exact absurd hm hrest
      subst hax
      rw [if_pos hd]
      have hn := foldl_cond_not_mem from' to' rest x hrest (b.Set x (to'.Get x))
      exact ⟨hn.1.trans (get_set_self b x (to'.Get x)),
        hn.2.trans (has_set_self b x (to'.Get x))⟩

theorem foldl_cond_self (a : Task) (l : List String) (b : Task) :
    (l.foldl (fun b att => if a.Get att ≠ a.Get att then b.Set att (a.Get att) else b) b) = b := by
  induction l generalizing b with
  | nil => rfl
  | cons c rest ih =>
    rw [List.foldl_cons, if_neg (by simp)]
    exact ih b

theorem patch_eq (base from' to' : Task) :
    patch base from' to' =
      (listIntersect from'.GetAttrNames to'.GetAttrNames).foldl
        (fun b att => if from'.Get att ≠ to'.Get att then b.Set att (to'.Get att) else b)
        ((to'.GetAttrNames.filter (fun r => !(sliceContains from'.GetAttrNames r))).foldl
          (fun b att => b.Set att (to'.Get att))
          ((from'.GetAttrNames.filter (fun l => !(sliceContains to'.GetAttrNames l))).foldl
            (fun b att => b.Remove att) base)) := rfl

theorem has_iff_slice (t : Task) (a : String) :
    sliceContains t.GetAttrNames a = true ↔ t.Has a = true := by
  rw [sliceContains_iff, mem_attrNames_iff]

/-- C3: for every three tasks, patch removes from base each attribute in from
but not in to, writes to base each attribute in to but not in from, overwrites
each attribute in both whose values differ, leaves attributes of base outside
from and to untouched, and patch(base, a, a) is the identity on base. -/
theorem C3_patch_three_way :
    (∀ base from' to' : Task, ∀ a : String,
      (from'.Has a = true → to'.Has a = false → (patch base from' to').Has a = false) ∧
      (from'.Has a = false → to'.Has a = true →
        (patch base from' to').Get a = to'.Get a ∧ (patch base from' to').Has a = true) ∧
      (from'.Has a = true → to'.Has a = true → from'.Get a ≠ to'.Get a →
        (patch base from' to').Get a = to'.Get a) ∧
      (from'.Has a = false → to'.Has a = false →
        (patch base from' to').Get a = base.Get a ∧ (patch base from' to').Has a = base.Has a)) ∧
    (∀ base a : Task, patch base a a = base) := by
  constructor
  · intro base from' to' a
    rw [patch_eq]
    refine ⟨?_, ?_, ?_, ?_⟩
    · intro hf ht
      have hslt : sliceContains to'.GetAttrNames a = false := by
        rw [Bool.eq_false_iff]
        intro hc
        rw [has_iff_slice] at hc
        rw [hc] at ht
        cases ht
      have hmemF : a ∈ from'.GetAttrNames.filter (fun l => !(sliceContains to'.GetAttrNames l)) := by
        rw [List.mem_filter]
        exact ⟨(mem_attrNames_iff from' a).mpr hf, by rw [hslt]; rfl⟩
      have hnoT : a ∉ to'.GetAttrNames.filter (fun r => !(sliceContains from'.GetAttrNames r)) := by
        intro hc
        have := (List.mem_filter.mp hc).1
        rw [mem_attrNames_iff] at this
        rw [this] at ht
        cases ht
      have hnoC : a ∉ listIntersect from'.GetAttrNames to'.GetAttrNames := by
        intro hc
        have := (List.mem_filter.mp hc).2
        rw [hslt] at this
        cases this
      rw [(foldl_cond_not_mem from' to' _ a hnoC _).2,
        (foldl_set_not_mem to' _ a hnoT _).2]
      exact foldl_remove_mem _ a hmemF base
    · intro hf ht
      have hslf : sliceContains from'.GetAttrNames a = false := by
        rw [Bool.eq_false_iff]
        intro hc
        rw [has_iff_slice] at hc
        rw [hc] at hf
        cases hf
      have hnoF : a ∉ from'.GetAttrNames.filter (fun l => !(sliceContains to'.GetAttrNames l)) := by
        intro hc
        have := (List.mem_filter.mp hc).1
        rw [mem_attrNames_iff] at this
        rw [this] at hf
        cases hf
      have hmemT : a ∈ to'.GetAttrNames.filter (fun r => !(sliceContains from'.GetAttrNames r)) := by
        rw [List.mem_filter]
        exact ⟨(mem_attrNames_iff to' a).mpr ht, by rw [hslf]; rfl⟩
      have hnoC : a ∉ listIntersect from'.GetAttrNames to'.GetAttrNames := by
        intro hc
        have := (List.mem_filter.mp hc).1
        rw [mem_attrNames_iff] at this
        rw [this] at hf
        cases hf
      have hset := foldl_set_mem to' _ a hmemT
        ((from'.GetAttrNames.filter (fun l => !(sliceContains to'.GetAttrNames l))).foldl
          (fun b att => b.Remove att) base)
      have hcond := foldl_cond_not_mem from' to' _ a hnoC
        ((to'.GetAttrNames.filter (fun r => !(sliceContains from'.GetAttrNames r))).foldl
          (fun b att => b.Set att (to'.Get att))
          ((from'.GetAttrNames.filter (fun l => !(sliceContains to'.GetAttrNames l))).foldl
            (fun b att => b.Remove att) base))
      exact ⟨hcond.1.trans hset.1, hcond.2.trans hset.2⟩
    · intro hf ht hd
      have hmemC : a ∈ listIntersect from'.GetAttrNames to'.GetAttrNames :=
        List.mem_filter.mpr ⟨(mem_attrNames_iff from' a).mpr hf, (has_iff_slice to' a).mpr ht⟩
      exact (foldl_cond_mem_diff from' to' _ a hmemC hd _).1
    · intro hf ht
      have hnoF : a ∉ from'.GetAttrNames.filter (fun l => !(sliceContains to'.GetAttrNames l)) := by
        intro hc
        have := (List.mem_filter.mp hc).1
        rw [mem_attrNames_iff] at this
        rw [this] at hf
        cases hf
      have hnoT : a ∉ to'.GetAttrNames.filter (fun r => !(sliceContains from'.GetAttrNames r)) := by
        intro hc
        have := (List.mem_filter.mp hc).1
        rw [mem_attrNames_iff] at this
        rw [this] at ht
        cases ht
      have hnoC : a ∉ listIntersect from'.GetAttrNames to'.GetAttrNames := by
        intro hc
        have := (List.mem_filter.mp hc).1
        rw [mem_attrNames_iff] at this
        rw [this] at hf
        cases hf
      have hrem := foldl_remove_not_mem _ a hnoF base
      have hset := foldl_set_not_mem to' _ a hnoT
        ((from'.GetAttrNames.filter (fun l => !(sliceContains to'.GetAttrNames l))).foldl
          (fun b att => b.Remove att) base)
      have hcond := foldl_cond_not_mem from' to' _ a hnoC
        ((to'.GetAttrNames.filter (fun r => !(sliceContains from'.GetAttrNames r))).foldl
          (fun b att => b.Set att (to'.Get att))
          ((from'.GetAttrNames.filter (fun l => !(sliceContains to'.GetAttrNames l))).foldl
            (fun b att => b.Remove att) base))
      exact ⟨(hcond.1.trans hset.1).trans hrem.1, (hcond.2.trans hset.2).trans hrem.2⟩
  · intro base a
    have hfo : a.GetAttrNames.filter (fun l => !(sliceContains a.GetAttrNames l)) = [] := by
      rw [List.filter_eq_nil_iff]
      intro x hx
      have hsx := (sliceContains_iff a.GetAttrNames x).mpr hx
      simp [hsx]
    rw [patch_eq, hfo, List.foldl_nil, List.foldl_nil]
    exact foldl_cond_self a _ base

/-- C3 witness: the four patch clauses and the identity at concrete tasks. -/
theorem C3_patch_three_way_witness :
    (patch (Task.mk [("a", "0"), ("e", "7")]) (Task.mk [("a", "1"), ("b", "2"), ("c", "3")])
        (Task.mk [("b", "2"), ("c", "9"), ("d", "4")])).Has "a" = false ∧
    (patch (Task.mk [("a", "0"), ("e", "7")]) (Task.mk [("a", "1"), ("b", "2"), ("c", "3")])
        (Task.mk [("b", "2"), ("c", "9"), ("d", "4")])).Get "d" =
      (Task.mk [("b", "2"), ("c", "9"), ("d", "4")]).Get "d" ∧
    (patch (Task.mk [("a", "0"), ("e", "7")]) (Task.mk [("a", "1"), ("b", "2"), ("c", "3")])
        (Task.mk [("b", "2"), ("c", "9"), ("d", "4")])).Get "c" =
      (Task.mk [("b", "2"), ("c", "9"), ("d", "4")]).Get "c" ∧
    (patch (Task.mk [("a", "0"), ("e", "7")]) (Task.mk [("a", "1"), ("b", "2"), ("c", "3")])
        (Task.mk [("b", "2"), ("c", "9"), ("d", "4")])).Get "e" =
      (Task.mk [("a", "0"), ("e", "7")]).Get "e" ∧
    patch (Task.mk [("x", "1")]) (Task.mk [("y", "2")]) (Task.mk [("y", "2")]) =
      Task.mk [("x", "1")] :=
  ⟨(C3_patch_three_way.1 (Task.mk [("a", "0"), ("e", "7")])
      (Task.mk [("a", "1"), ("b", "2"), ("c", "3")])
      (Task.mk [("b", "2"), ("c", "9"), ("d", "4")]) "a").1 (by decide) (by decide),
   ((C3_patch_three_way.1 (Task.mk [("a", "0"), ("e", "7")])
      (Task.mk [("a", "1"), ("b", "2"), ("c", "3")])
      (Task.mk [("b", "2"), ("c", "9"), ("d", "4")]) "d").2.1 (by decide) (by decide)).1,
   (C3_patch_three_way.1 (Task.mk [("a", "0"), ("e", "7")])
      (Task.mk [("a", "1"), ("b", "2"), ("c", "3")])
      (Task.mk [("b", "2"), ("c", "9"), ("d", "4")]) "c").2.2.1 (by decide) (by decide)
        (by decide),
   ((C3_patch_three_way.1 (Task.mk [("a", "0"), ("e", "7")])
      (Task.mk [("a", "1"), ("b", "2"), ("c", "3")])
      (Task.mk [("b", "2"), ("c", "9"), ("d", "4")]) "e").2.2.2 (by decide) (by decide)).1,
   C3_patch_three_way.2 (Task.mk [("x", "1")]) (Task.mk [("y", "2")])⟩

theorem mergeSortLoop_nil_nil (c pl pr : Task) :
    mergeSortLoop [] [] c pl pr = c := by
  conv_lhs => rw [mergeSortLoop.eq_def]

theorem mergeSortLoop_cons_nil (l : Task) (ls : List Task) (c pl pr : Task) :
    mergeSortLoop (l :: ls) [] c pl pr =
      mergeSortLoop ls [] ((patch c pl l).SetDate "modified" (lastModification l)) l pr := by
  conv_lhs => rw [mergeSortLoop.eq_def]

theorem mergeSortLoop_nil_cons (r : Task) (rs : List Task) (c pl pr : Task) :
    mergeSortLoop [] (r :: rs) c pl pr =
      mergeSortLoop [] rs ((patch c pr r).SetDate "modified" (lastModification r)) pl r := by
  conv_lhs => rw [mergeSortLoop.eq_def]

theorem mergeSortLoop_cons_cons (l r : Task) (ls rs : List Task) (c pl pr : Task) :
    mergeSortLoop (l :: ls) (r :: rs) c pl pr =
      if lastModification l < lastModification r then
        mergeSortLoop ls (r :: rs)
          ((patch c pl l).SetDate "modified" (lastModification l)) l pr
      else
        mergeSortLoop (l :: ls) rs
          ((patch c pr r).SetDate "modified" (lastModification r)) pl r := by
  conv_lhs => rw [mergeSortLoop.eq_def]

/-- C2: with both cursors loaded, mergeSort applies the client-side (left)
patch first exactly when its last modification is strictly earlier; otherwise
(in particular on equality) the server-side (right) patch is applied first,
the other side being drained afterwards. -/
theorem C2_merge_tie_break :
    ∀ l r c : Task,
      (lastModification l < lastModification r →
        mergeSort [l] [r] c =
          (patch ((patch c c l).SetDate "modified" (lastModification l)) c r).SetDate
            "modified" (lastModification r)) ∧
      (lastModification r ≤ lastModification l →
        mergeSort [l] [r] c =
          (patch ((patch c c r).SetDate "modified" (lastModification r)) c l).SetDate
            "modified" (lastModification l)) := by
  intro l r c
  constructor
  · intro h
    unfold mergeSort Task.Copy
    rw [mergeSortLoop_cons_cons, if_pos h, mergeSortLoop_nil_cons, mergeSortLoop_nil_nil]
  · intro h
    unfold mergeSort Task.Copy
    rw [mergeSortLoop_cons_cons, if_neg (not_lt.mpr h), mergeSortLoop_cons_nil,
      mergeSortLoop_nil_nil]

/-- C2 witness: a strictly-earlier left modification is applied first, and on
an exact timestamp tie the right (server) modification is applied first. -/
theorem C2_merge_tie_break_witness :
    mergeSort [Task.mk [("uuid", "u"), ("modified", "3")]]
        [Task.mk [("uuid", "u"), ("modified", "7")]] (Task.mk [("uuid", "u")]) =
      (patch ((patch (Task.mk [("uuid", "u")]) (Task.mk [("uuid", "u")])
          (Task.mk [("uuid", "u"), ("modified", "3")])).SetDate "modified"
            (lastModification (Task.mk [("uuid", "u"), ("modified", "3")])))
        (Task.mk [("uuid", "u")])
        (Task.mk [("uuid", "u"), ("modified", "7")])).SetDate "modified"
          (lastModification (Task.mk [("uuid", "u"), ("modified", "7")])) ∧
    mergeSort [Task.mk [("uuid", "u"), ("modified", "5"), ("tags", "A")]]
        [Task.mk [("uuid", "u"), ("modified", "5"), ("tags", "B")]]
        (Task.mk [("uuid", "u"), ("modified", "5")]) =
      (patch ((patch (Task.mk [("uuid", "u"), ("modified", "5")])
          (Task.mk [("uuid", "u"), ("modified", "5")])
          (Task.mk [("uuid", "u"), ("modified", "5"), ("tags", "B")])).SetDate "modified"
            (lastModification (Task.mk [("uuid", "u"), ("modified", "5"), ("tags", "B")])))
        (Task.mk [("uuid", "u"), ("modified", "5")])
        (Task.mk [("uuid", "u"), ("modified", "5"), ("tags", "A")])).SetDate "modified"
          (lastModification (Task.mk [("uuid", "u"), ("modified", "5"), ("tags", "A")])) :=
  ⟨(C2_merge_tie_break (Task.mk [("uuid", "u"), ("modified", "3")])
      (Task.mk [("uuid", "u"), ("modified", "7")]) (Task.mk [("uuid", "u")])).1 (by decide),
   (C2_merge_tie_break (Task.mk [("uuid", "u"), ("modified", "5"), ("tags", "A")])
      (Task.mk [("uuid", "u"), ("modified", "5"), ("tags", "B")])
      (Task.mk [("uuid", "u"), ("modified", "5")])).2 (by decide)⟩

/-- C1 counterexample: in task/server.go only the empty key is special-cased,
so a first-time sync that reports the nil UUID against an empty log finds no
branch point (-1, not the claimed 0) and sync answers 500 without appending,
instead of the claimed 200 with the task and a fresh key appended. -/
theorem C1_counterexample :
    findBranchPoint [] "00000000-0000-0000-0000-000000000000" = -1 ∧
    findBranchPoint [] "00000000-0000-0000-0000-000000000000" ≠ 0 ∧
    sync (fun _ => .error "unused") [] "00000000-0000-0000-0000-000000000000"
        [Task.mk [("uuid", "t1")]] "fresh-key" =
      NewResponseMessage "500"
        "Could not find the last sync transaction. Did you skip the 'task sync init' requirement?" ∧
    (sync (fun _ => .error "unused") [] "00000000-0000-0000-0000-000000000000"
        [Task.mk [("uuid", "t1")]] "fresh-key").appended = none ∧
    (sync (fun _ => .error "unused") [] "00000000-0000-0000-0000-000000000000"
        [Task.mk [("uuid", "t1")]] "fresh-key").code ≠ "200" :=
  ⟨rfl, by decide, rfl, rfl, by decide⟩

/-- C1 amended: the pkg/task/server variant maps both the empty key and the
nil UUID to branch point 0, while task/server.go does so only for the empty
key; with the empty key an initial sync of one task against an empty log
succeeds for every parser: the task's canonical JSON and the fresh sync key
are appended and the response is 200 Ok with the new key as payload. -/
theorem C1_amended_branch_point :
    (∀ data : List String,
      findBranchPointPkg data "" = 0 ∧
      findBranchPointPkg data "00000000-0000-0000-0000-000000000000" = 0) ∧
    (∀ data : List String, findBranchPoint data "" = 0) ∧
    (∀ (parse : String → Except String Task) (t : Task) (k : String),
      sync parse [] "" [t] k =
        ⟨some [composeJSON t ++ "\n", k ++ "\n"], "200", "Ok", k ++ "\n"⟩) := by
  refine ⟨fun data => ⟨rfl, rfl⟩, fun data => rfl, fun parse t k => ?_⟩
  rfl

theorem findKeyIdx_append (pre : List String) (key : String) (h : key ∉ pre) (i : Int) :
    findKeyIdx (pre ++ [key]) key i = i + pre.length := by
  induction pre generalizing i with
  | nil => simp [findKeyIdx]
  | cons a rest ih =>
    have hak : ¬ (a = key) := fun hc => h (by simp [hc])
    rw [List.cons_append]
    simp only [findKeyIdx, if_neg hak]
    rw [ih (fun hc => h (List.mem_cons_of_mem a hc)) (i + 1)]
    simp only [List.length_cons]
    push_cast
    omega

theorem findBranchPoint_append (pre : List String) (key : String)
    (hk : key ≠ "") (h : key ∉ pre) :
    findBranchPoint (pre ++ [key]) key = pre.length := by
  simp only [findBranchPoint, if_neg hk]
  simpa using findKeyIdx_append pre key h 0

/-- C4: when the last log line is the sync key the client reports and the
request carries no tasks, sync answers 201 No change with that key as the
payload and the append operation is not invoked, for every parser. -/
theorem C4_noop_sync (parse : String → Except String Task) (pre : List String)
    (key fresh : String) (hk : key ≠ "") (hmem : key ∉ pre)
    (hbrace : strStartsWith key "\x7b" = false) :
    sync parse (pre ++ [key]) key [] fresh = ⟨none, "201", "No change", key ++ "\n"⟩ := by
  have hsub : extractSubset parse (pre ++ [key]) pre.length = .ok [] := by
    unfold extractSubset
    rw [List.drop_left]
    simp [extractSubsetLoop, hbrace]
  have hscan : lastKeyScan (pre ++ [key]) = key := by
    unfold lastKeyScan
    rw [List.reverse_append]
    simp [hbrace]
  simp only [sync, findBranchPoint_append pre key hk hmem,
    if_neg (by omega : ¬ ((pre.length : Int) = -1)), Int.toNat_ofNat, hsub,
    syncLoop, hscan, getResponsePayload, ErrorCodes]
  norm_num

/-- C4 witness: the no-op re-sync at a concrete log and key. -/
theorem C4_noop_sync_witness :
    sync (fun _ => .error "unused")
        (["\x7b\"uuid\":\"a\"\x7d"] ++ ["11111111-2222-3333-4444-555555555555"])
        "11111111-2222-3333-4444-555555555555" [] "fresh" =
      ⟨none, "201", "No change", "11111111-2222-3333-4444-555555555555" ++ "\n"⟩ :=
  C4_noop_sync (fun _ => .error "unused") ["\x7b\"uuid\":\"a\"\x7d"]
    "11111111-2222-3333-4444-555555555555" "fresh" (by decide) (by decide) (by decide)

/-- C5: receiveMessage issues one single Read for the body and ignores the
returned count, so a frame of announced length 10 delivered as two chunks is
truncated after the first chunk, the unread tail remaining the buffer's zero
initialization (while the same six body bytes in one chunk go through, and an
announced length above the request limit is rejected).  The claimed
retry-until-complete behaviour does not hold. -/
theorem C5_partial_read_bug :
    receiveMessage [[0, 0, 0, 10], [97, 98, 99], [100, 101, 102]] =
      .ok [97, 98, 99, 0, 0, 0] ∧
    receiveMessage [[0, 0, 0, 10], [97, 98, 99, 100, 101, 102]] =
      .ok [97, 98, 99, 100, 101, 102] ∧
    ([97, 98, 99, 0, 0, 0] : List Nat) ≠ [97, 98, 99, 100, 101, 102] ∧
    receiveMessage [[0, 16, 0, 5], [97]] = .error "message size limit exceeded" :=
  ⟨rfl, rfl, by decide, rfl⟩

/-- C7: on the valid-UTF-8 input "日" enclosed in ASCII double quotes (bytes
34, 230, 151, 165, 34), whose closing quote is preceded by zero backslashes,
GetQuoted returns failure through its decode at byte index i-1, which lands
inside the multi-byte rune — the path the source marks as unreachable —
contradicting the claim that every properly closed quote succeeds; the same
call with an ASCII interior, and a multi-byte quote rune with ASCII interior,
do succeed. -/
theorem C7_get_quoted_multibyte_bug :
    isValidUtf8 [34, 230, 151, 165, 34] = true ∧
    GetQuoted 34 [34, 230, 151, 165, 34] 0 = none ∧
    GetQuoted 34 [34, 97, 34] 0 = some ([97], 3) ∧
    GetQuoted 26085 [230, 151, 165, 102, 111, 111, 230, 151, 165] 0 =
      some ([102, 111, 111], 9) :=
  ⟨rfl, rfl, rfl, rfl⟩

/-- C8: with no stale temp file, the prepare step leaves tx.data untouched and
fills tx.tmp.data with the current log (empty when the log is missing), the
write step appends exactly the lines to the temp, the full Append succeeds
leaving tx.data equal to the previous content plus the appended lines with
the temp gone, and a temp-open failure leaves tx.data untouched. -/
theorem C8_append_atomic :
    ∀ (fs : FSState) (lines : List String), fs.txTmp = none →
      (runStep fs .prepare).txData = fs.txData ∧
      (runStep fs .prepare).txTmp = some (fs.txData.getD []) ∧
      (runStep (runStep fs .prepare) (.write lines)).txData = fs.txData ∧
      (runStep (runStep fs .prepare) (.write lines)).txTmp =
        some (fs.txData.getD [] ++ lines) ∧
      Append fs lines false = (none, ⟨some (fs.txData.getD [] ++ lines), none⟩) ∧
      (Append fs lines true).2.txData = fs.txData := by
  intro fs lines htmp
  obtain ⟨d, t⟩ := fs
  simp only at htmp
  subst htmp
  cases d with
  | none => exact ⟨rfl, rfl, rfl, rfl, rfl, rfl⟩
  | some c => exact ⟨rfl, rfl, rfl, rfl, rfl, rfl⟩

/-- C8 witness: one append of one line onto an existing one-line log. -/
theorem C8_append_atomic_witness :
    (runStep ⟨some ["k"], none⟩ .prepare).txData = (⟨some ["k"], none⟩ : FSState).txData ∧
    (runStep ⟨some ["k"], none⟩ .prepare).txTmp =
      some ((⟨some ["k"], none⟩ : FSState).txData.getD []) ∧
    (runStep (runStep ⟨some ["k"], none⟩ .prepare) (.write ["x"])).txData =
      (⟨some ["k"], none⟩ : FSState).txData ∧
    (runStep (runStep ⟨some ["k"], none⟩ .prepare) (.write ["x"])).txTmp =
      some ((⟨some ["k"], none⟩ : FSState).txData.getD [] ++ ["x"]) ∧
    Append ⟨some ["k"], none⟩ ["x"] false =
      (none, ⟨some ((⟨some ["k"], none⟩ : FSState).txData.getD [] ++ ["x"]), none⟩) ∧
    (Append ⟨some ["k"], none⟩ ["x"] true).2.txData =
      (⟨some ["k"], none⟩ : FSState).txData :=
  C8_append_atomic ⟨some ["k"], none⟩ ["x"] rfl

/-- C9 counterexample: the two concurrent appends of the same user's syncs,
each running the copy-write-rename sequence on the shared temp path with no
per-user lock (cmd/server.go dispatches every connection on its own
goroutine), can interleave so that the second prepare truncates the temp
after the first sync wrote its lines: the final log is missing the first
sync's line "a", so it is not the union of the two syncs' appended lines. -/
theorem C9_counterexample :
    runSteps ⟨some ["k"], none⟩
        [.prepare, .write ["a"], .prepare, .write ["b"], .rename, .rename] =
      ⟨some ["k", "b"], none⟩ ∧
    ("a" : String) ∉ (["k", "b"] : List String) :=
  ⟨rfl, by decide⟩

/-- C9 amended: serialized, the two appends produce the union of both syncs'
lines; unserialized, the interleaving in which the second sync's prepare runs
between the first sync's write and rename drops the first sync's lines. -/
theorem C9_amended_interleaving :
    ∀ (k : String) (la lb : List String),
      runSteps ⟨some [k], none⟩ (appendSteps la ++ appendSteps lb) =
        ⟨some ((k :: la) ++ lb), none⟩ ∧
      runSteps ⟨some [k], none⟩
          [.prepare, .write la, .prepare, .write lb, .rename, .rename] =
        ⟨some (k :: lb), none⟩ :=
  fun k la lb =>
    ⟨congrArg (fun x => FSState.mk (some x) none) rfl, rfl⟩

/-- C6 counterexample: ComposeJSON renders a two-element depends attribute as
the comma-joined JSON string, not as the claimed JSON array. -/
theorem C6_counterexample :
    composeJSON ⟨[("depends", "a,b")]⟩ = "\x7b\"depends\":\"a,b\"\x7d" ∧
    composeJSON ⟨[("depends", "a,b")]⟩ ≠ "\x7b\"depends\":[\"a\",\"b\"]\x7d" :=
  ⟨rfl, by decide⟩

/-- C6 amended: for every internal value, ComposeJSON emits depends as the
plain comma-joined JSON string (the computed split list is dead code,
immediately overwritten), while tags is emitted as the JSON array obtained by
splitting on commas. -/
theorem C6_amended_depends_emission :
    ∀ v : String,
      composeJSON ⟨[("depends", v)]⟩ = "\x7b\"depends\":" ++ jsonQuote v ++ "\x7d" ∧
      composeJSON ⟨[("tags", v)]⟩ =
        "\x7b\"tags\":" ++ renderStrArray (v.splitOn ",") ++ "\x7d" := by
  intro v
  constructor
  · show "\x7b" ++ (jsonQuote "depends" ++ ":" ++ jsonQuote v) ++ "\x7d" = _
    simp only [← String.append_assoc]
    rfl
  · show "\x7b" ++ (jsonQuote "tags" ++ ":" ++ renderStrArray (v.splitOn ",")) ++ "\x7d" = _
    simp only [← String.append_assoc]
    rfl

theorem addTag_get_uuid (t : Task) (tag : String) :
    (addTag t tag).Get "uuid" = t.Get "uuid" := by
  unfold addTag
  by_cases h : (if (t.Get "tags").length > 0 then (t.Get "tags").splitOn "," else []).contains tag
  · rw [if_pos h]
  · rw [if_neg h]
    exact get_set_ne t "tags" _ "uuid" (by decide)

theorem foldl_addTag_uuid (tags : List String) (t : Task) :
    (tags.foldl addTag t).Get "uuid" = t.Get "uuid" := by
  induction tags generalizing t with
  | nil => rfl
  | cons a rest ih =>
    rw [List.foldl_cons, ih (addTag t a), addTag_get_uuid]

theorem addDependency_uuid (t : Task) (dep : String) (t' : Task)
    (h : addDependency t dep = .ok t') : t'.Get "uuid" = t.Get "uuid" := by
  unfold addDependency at h
  by_cases h1 : dep = t.Get "uuid"
  · rw [if_pos h1] at h; cases h
  · rw [if_neg h1] at h
    by_cases h2 : t.Get "depends" ≠ ""
    · rw [if_pos h2] at h
      by_cases h3 : !(containsSubstr (t.Get "depends") dep)
      · rw [if_pos h3] at h
        cases h
        exact get_set_ne t "depends" _ "uuid" (by decide)
      · rw [if_neg h3] at h
        cases h
        rfl
    · rw [if_neg h2] at h
      cases h
      exact get_set_ne t "depends" _ "uuid" (by decide)

theorem depsFold_uuid (deps : List String) (t t' : Task)
    (h : depsFold t deps = .ok t') : t'.Get "uuid" = t.Get "uuid" := by
  induction deps generalizing t with
  | nil => cases h; rfl
  | cons d rest ih =>
    unfold depsFold at h
    cases hd : addDependency t d with
    | error e => rw [hd] at h; cases h
    | ok t2 =>
      rw [hd] at h
      rw [ih t2 h, addDependency_uuid t d t2 hd]

theorem annotationName_ne_uuid (ts : Int) : ("annotation_" ++ toString ts) ≠ "uuid" := by
  intro h
  have hlen := congrArg String.length h
  rw [String.length_append] at hlen
  have h1 : "annotation_".length = 11 := rfl
  have h2 : "uuid".length = 4 := rfl
  rw [h1, h2] at hlen
  omega

theorem parseAnnoationsLoop_names (items : List JValue)
    (es : List (String × String)) (h : parseAnnoationsLoop items = .ok es) :
    ∀ e ∈ es, e.1 ≠ "uuid" := by
  induction items generalizing es with
  | nil =>
    cases h
    intro e he
    cases he
  | cons item rest ih =>
    cases item with
    | obj fields =>
      simp only [parseAnnoationsLoop] at h
      cases h1 : lookupJ fields "entry" with
      | none => simp only [h1] at h; exact Except.noConfusion h
      | some when' =>
        simp only [h1] at h
        cases h2 : lookupJ fields "description" with
        | none => simp only [h2] at h; exact Except.noConfusion h
        | some what =>
          simp only [h2] at h
          cases h3 : parseDate (govFormat when') with
          | none => simp only [h3] at h; exact Except.noConfusion h
          | some ts =>
            simp only [h3] at h
            cases h4 : parseAnnoationsLoop rest with
            | error e => simp only [h4] at h; exact Except.noConfusion h
            | ok es2 =>
              simp only [h4, Except.ok.injEq] at h
              subst h
              intro e he
              cases he with
              | head => exact annotationName_ne_uuid ts
              | tail _ hm => exact ih es2 h4 e hm
    | str s => exact Except.noConfusion (by simpa only [parseAnnoationsLoop] using h)
    | num n => exact Except.noConfusion (by simpa only [parseAnnoationsLoop] using h)
    | bool b => exact Except.noConfusion (by simpa only [parseAnnoationsLoop] using h)
    | null => exact Except.noConfusion (by simpa only [parseAnnoationsLoop] using h)
    | arr xs => exact Except.noConfusion (by simpa only [parseAnnoationsLoop] using h)

theorem foldl_set_pairs_uuid (es : List (String × String)) (t : Task)
    (hall : ∀ e ∈ es, e.1 ≠ "uuid") :
    (es.foldl (fun acc e => acc.Set e.1 e.2) t).Get "uuid" = t.Get "uuid" := by
  induction es generalizing t with
  | nil => rfl
  | cons e rest ih =>
    rw [List.foldl_cons,
      ih _ (fun e2 he2 => hall e2 (List.mem_cons_of_mem e he2)),
      get_set_ne t e.1 e.2 "uuid" (fun hc => hall e (List.mem_cons_self e rest) hc.symm)]

theorem processField_uuid (t : Task) (n : String) (v : JValue) (t' : Task)
    (hn : n ≠ "uuid") (h : processField t n v = .ok t') :
    t'.Get "uuid" = t.Get "uuid" := by
  unfold processField at h
  by_cases h1 : attributeTypes n ≠ ""
  · rw [if_pos h1] at h
    by_cases h2 : n = "id"
    · rw [if_pos h2] at h; cases h; rfl
    · rw [if_neg h2] at h
      by_cases h3 : n = "urgency"
      · rw [if_pos h3] at h; cases h; rfl
      · rw [if_neg h3] at h
        by_cases h4 : n = "modification"
        · rw [if_pos h4] at h
          cases hp : parseDate (govFormat v) with
          | none => rw [hp] at h; cases h
          | some ts =>
            rw [hp] at h
            cases h
            exact get_set_ne t "modified" _ "uuid" (by decide)
        · rw [if_neg h4] at h
          by_cases h5 : attributeTypes n = "date"
          · rw [if_pos h5] at h
            cases hp : parseDate (govFormat v) with
            | none => rw [hp] at h; cases h
            | some ts =>
              rw [hp] at h
              cases h
              exact get_set_ne t n _ "uuid" (fun hc => hn hc.symm)
          · rw [if_neg h5] at h
            by_cases h6 : n = "tags"
            · rw [if_pos h6] at h
              cases hp : parseTags v with
              | error e => rw [hp] at h; cases h
              | ok tags =>
                rw [hp] at h
                cases h
                exact foldl_addTag_uuid tags t
            · rw [if_neg h6] at h
              by_cases h7 : n = "depends"
              · rw [if_pos h7] at h
                cases hp : parseDepends v with
                | error e => rw [hp] at h; cases h
                | ok deps => rw [hp] at h; exact depsFold_uuid deps t t' h
              · rw [if_neg h7] at h
                cases h
                exact get_set_ne t n _ "uuid" (fun hc => hn hc.symm)
  · rw [if_neg h1] at h
    by_cases h8 : n = "annotations"
    · rw [if_pos h8] at h
      cases hp : parseAnnoations v with
      | error e => rw [hp] at h; cases h
      | ok entries =>
        rw [hp] at h
        cases h
        cases v with
        | arr items =>
          exact foldl_set_pairs_uuid entries t
            (parseAnnoationsLoop_names items entries (by simpa [parseAnnoations] using hp))
        | str s => cases hp
        | num m => cases hp
        | bool b => cases hp
        | null => cases hp
        | obj fields => cases hp
    · rw [if_neg h8] at h
      cases h
      exact get_set_ne t n _ "uuid" (fun hc => hn hc.symm)

theorem processFields_uuid (fields : List (String × JValue)) (t t' : Task)
    (hall : ∀ p ∈ fields, p.1 ≠ "uuid")
    (h : processFields t fields = .ok t') : t'.Get "uuid" = t.Get "uuid" := by
  induction fields generalizing t with
  | nil => cases h; rfl
  | cons p rest ih =>
    obtain ⟨n, v⟩ := p
    unfold processFields at h
    cases hp : processField t n v with
    | error e => rw [hp] at h; cases h
    | ok t2 =>
      rw [hp] at h
      rw [ih t2 (fun q hq => hall q (List.mem_cons_of_mem _ hq)) h,
        processField_uuid t n v t2 (hall (n, v) (List.mem_cons_self _ _)) hp]

/-- C10 counterexample: a JSON object that lacks a uuid but carries an
unparsable date is rejected by parseJSON, so the claim that every uuid-less
object parses without error is false. -/
theorem C10_counterexample :
    lookupJ [("due", JValue.str "garbage")] "uuid" = none ∧
    parseJSON [("due", JValue.str "garbage")] =
      .error "parsing date in due field, garbage" :=
  ⟨rfl, rfl⟩

/-- C10 amended: the missing uuid itself is never rejected — whenever
parseJSON succeeds on an object without a uuid field, the resulting task's
uuid attribute is the formatted nil interface, the literal <nil>. -/
theorem C10_amended_missing_uuid :
    ∀ (fields : List (String × JValue)) (t : Task),
      lookupJ fields "uuid" = none →
      parseJSON fields = .ok t →
      t.Get "uuid" = "<nil>" := by
  intro fields t hlk h
  have hall : ∀ p ∈ fields, p.1 ≠ "uuid" := by
    intro p hp
    unfold lookupJ at hlk
    cases hf : fields.find? (fun q => q.1 == "uuid") with
    | some q => rw [hf] at hlk; cases hlk
    | none =>
      have := List.find?_eq_none.mp hf p hp
      simpa using this
  unfold parseJSON at h
  rw [processFields_uuid fields _ t hall h]
  show govFormatOpt (lookupJ fields "uuid") = "<nil>"
  rw [hlk]
  rfl

/-- C10 witness: a one-field object without uuid parses and carries
uuid = <nil>. -/
theorem C10_amended_missing_uuid_witness :
    Task.Get (Task.mk [("uuid", "<nil>"), ("description", "x")]) "uuid" = "<nil>" :=
  C10_amended_missing_uuid [("description", JValue.str "x")]
    (Task.mk [("uuid", "<nil>"), ("description", "x")]) rfl rfl

end Gotas












